/-
Verification of the UK House Price Index dashboard (app.py).

The dashboard loads a flat CSV of HPI records, coerces types, filters by
region and inclusive date range, derives a latest-date snapshot, and
renders summary metrics.  This file shallowly embeds that pipeline:

* a raw CSV cell is `Option String` (a pandas NaN is `none`);
* `pd.to_datetime(_, format := d/m/Y, errors := coerce)` is `parseDMY`,
  returning a day-precision timestamp encoded as the order-preserving key
  `year * 10000 + month * 100 + day`;
* `pd.to_numeric(_, errors := coerce)` after the comma strip is
  `coerceNumeric`, returning `Option ℚ` (numbers are modelled by rationals;
  float rounding in the formatter is modelled as round-half-to-even);
* the dataframe is a `List Record`; `df.sort_values(by := Date)` is a
  stable sort by the date key (`List.insertionSort`);
* `st.metric` calls are reified into a `MetricDisplay` value recording the
  exact strings and the `delta_color` argument passed to the widget.
-/
import Mathlib

namespace HPI

/-! ### Dates -/

/-- Order-preserving encoding of a calendar date as a single number,
mirroring the scalar timestamps pandas stores after `to_datetime`. -/
def dateKey (y m d : Nat) : Nat := y * 10000 + m * 100 + d

/-- Leap-year rule used by the calendar validation in `to_datetime`. -/
def isLeap (y : Nat) : Bool := (y % 4 == 0 && y % 100 != 0) || y % 400 == 0

/-- Number of days in month `m` of year `y`. -/
def daysInMonth (y m : Nat) : Nat :=
  if m == 2 then (if isLeap y then 29 else 28)
  else if m == 4 || m == 6 || m == 9 || m == 11 then 30
  else 31

/-- Split a character list on a separator (the `str.split` of the date
format matching). -/
def splitOnChar (sep : Char) : List Char → List (List Char)
  | [] => [[]]
  | c :: cs =>
    if c = sep then [] :: splitOnChar sep cs
    else
      match splitOnChar sep cs with
      | [] => [[c]]
      | g :: gs => (c :: g) :: gs

/-- Parse a nonempty all-digit character list as a natural number. -/
def parseNatDigits (l : List Char) : Option Nat :=
  if l ≠ [] ∧ l.all (fun c => c.isDigit) then
    some (l.foldl (fun a c => a * 10 + (c.toNat - 48)) 0)
  else none

/-- Embedding of `pd.to_datetime(s, format := %d/%m/%Y, errors := coerce)`
on a single string cell: strict day/month/year parse with calendar
validation; failure is `none` (pandas NaT). -/
def parseDMY (s : String) : Option Nat :=
  match splitOnChar '/' s.data with
  | [ds, ms, ys] =>
    match parseNatDigits ds, parseNatDigits ms, parseNatDigits ys with
    | some d, some m, some y =>
      if ds.length ≤ 2 && ms.length ≤ 2 && ys.length ≤ 4 &&
         1 ≤ m && m ≤ 12 && 1 ≤ d && d ≤ daysInMonth y m then
        some (dateKey y m d)
      else none
    | _, _, _ => none
  | _ => none

/-! ### Numeric coercion -/

/-- `str.replace(",", "")`: delete every comma of the string. -/
def stripCommas (s : String) : String := String.mk (s.data.filter (fun c => c ≠ ','))

/-- Split the character list of a numeric literal at the first dot. -/
def splitAtDot (l : List Char) : List Char × List Char :=
  (l.takeWhile (fun c => c ≠ '.'), (l.dropWhile (fun c => c ≠ '.')).drop 1)

/-- Value of a digit list read most-significant first. -/
def digitsVal (l : List Char) : Nat := l.foldl (fun a c => a * 10 + (c.toNat - 48)) 0

/-- Embedding of `pd.to_numeric(s, errors := coerce)` on one string cell:
optional surrounding spaces and sign, decimal digits with at most one dot,
at least one digit; anything else is `none` (pandas NaN).  The value
`±(ip.fp)` is assembled as the exact rational
`(sign * (ip * 10^|fp| + fp)) / 10^|fp|`. -/
def parseNum (s : String) : Option ℚ :=
  let t := (s.data.dropWhile (fun c => c = ' ')).reverse.dropWhile (fun c => c = ' ') |>.reverse
  let signed : ℤ × List Char :=
    match t with
    | '-' :: cs => (-1, cs)
    | '+' :: cs => (1, cs)
    | cs => (1, cs)
  let ip := (splitAtDot signed.2).1
  let fp := (splitAtDot signed.2).2
  if (ip ++ fp) ≠ [] ∧ (ip ++ fp).all (fun c => c.isDigit) ∧
     (signed.2.filter (fun c => c = '.')).length ≤ 1 then
    some (mkRat (signed.1 * (digitsVal ip * 10 ^ fp.length + digitsVal fp : Nat))
      (10 ^ fp.length))
  else none

/-- One numeric cell of the loader: strip thousands-separator commas, then
coerce, unparseable values becoming missing (app.py lines 132-136). -/
def coerceNumeric (s : String) : Option ℚ := parseNum (stripCommas s)

/-! ### Rows and the loader -/

/-- A raw CSV row as read by `pd.read_csv`: every cell may be missing. -/
structure RawRow where
  regionName : Option String
  date : Option String
  averagePrice : Option String
  change12m : Option String
  semiDetachedPrice : Option String
  terracedPrice : Option String
  flatPrice : Option String
  ftbPrice : Option String
  ftbIndex : Option String
  ftb12mChange : Option String
deriving DecidableEq, Repr

/-- A loaded HPI record: after `dropna(subset := [Date, RegionName])` the
region and date are present; every other field may still be missing. -/
structure Record where
  regionName : String
  date : Nat
  averagePrice : Option ℚ
  change12m : Option ℚ
  semiDetachedPrice : Option ℚ
  terracedPrice : Option ℚ
  flatPrice : Option ℚ
  ftbPrice : Option ℚ
  ftbIndex : Option ℚ
  ftb12mChange : Option ℚ
deriving DecidableEq, Repr

/-- Process one raw row: date conversion, the drop of rows missing date or
region, and numeric coercion of the designated columns (app.py 121-136). -/
def parseRow (r : RawRow) : Option Record :=
  match r.regionName, r.date.bind parseDMY with
  | some name, some d =>
    some { regionName := name
           date := d
           averagePrice := r.averagePrice.bind coerceNumeric
           change12m := r.change12m.bind coerceNumeric
           semiDetachedPrice := r.semiDetachedPrice.bind coerceNumeric
           terracedPrice := r.terracedPrice.bind coerceNumeric
           flatPrice := r.flatPrice.bind coerceNumeric
           ftbPrice := r.ftbPrice.bind coerceNumeric
           ftbIndex := r.ftbIndex.bind coerceNumeric
           ftb12mChange := r.ftb12mChange.bind coerceNumeric }
  | _, _ => none

/-- `load_data` (app.py 115-138): the table of valid records. -/
def load_data (rows : List RawRow) : List Record := rows.filterMap parseRow

/-! ### Region selection (app.py 159-171) -/

/-- `sorted(df[RegionName].unique())`: the distinct region names of the
table, alphabetically ordered. -/
def sortedRegions (df : List Record) : List String :=
  List.insertionSort (fun a b : String => a ≤ b) (df.map (fun r => r.regionName)).dedup

/-- The city/district choices offered for a selected parent group.  The
static `REGION_MAPPING` is passed as `mapping`; `parent` is the selected
key of that mapping. -/
def available_sub_regions (mapping : String → List String) (df : List Record)
    (parent : String) : List String :=
  if parent = "All Regions (A-Z)" then
    sortedRegions df
  else
    let avail := (mapping parent).filter (fun n => n ∈ df.map (fun r => r.regionName))
    if avail = [] then sortedRegions df else avail

/-! ### Range filter and snapshot (app.py 197-210) -/

/-- Date order on records, used by `sort_values(by := Date)`. -/
def Record.dle (a b : Record) : Prop := a.date ≤ b.date

instance : DecidableRel Record.dle := fun a b => Nat.decLe a.date b.date

instance : IsTotal Record Record.dle := ⟨fun a b => Nat.le_total a.date b.date⟩

instance : IsTrans Record Record.dle := ⟨fun _ _ _ h h' => Nat.le_trans h h'⟩

/-- `filtered_df` (app.py 197-201): the records of the selected region
whose date lies in the inclusive range, sorted chronologically.  The
model's sort is a stable insertion sort; pandas' default
`sort_values(kind = quicksort)` only promises the contract captured by
`IsSortValues` below — tie order among equal dates is unspecified — so
properties that depend on tie order are stated over `filtered_df_with`
for an arbitrary contract-satisfying sort, not over this instance. -/
def filtered_df (df : List Record) (region : String) (startD endD : Nat) : List Record :=
  List.insertionSort Record.dle
    (df.filter (fun r => r.regionName = region ∧ startD ≤ r.date ∧ r.date ≤ endD))

/-- The documented contract of `sort_values(by := Date)`: the output is a
permutation of the input rows, ordered by date.  The default quicksort is
not documented stable, so nothing more is assumed. -/
def IsSortValues (sortF : List Record → List Record) : Prop :=
  ∀ l : List Record, List.Perm (sortF l) l ∧ List.Sorted Record.dle (sortF l)

/-- `filtered_df` with the sorting step abstracted to any algorithm
meeting the `sort_values` contract. -/
def filtered_df_with (sortF : List Record → List Record) (df : List Record)
    (region : String) (startD endD : Nat) : List Record :=
  sortF (df.filter (fun r => r.regionName = region ∧ startD ≤ r.date ∧ r.date ≤ endD))

/-- `filtered_df[Date].max()` (app.py 209): running maximum of the dates. -/
def maxKeyFrom : List Record → Nat → Nat
  | [], acc => acc
  | r :: rs, acc => maxKeyFrom rs (max acc r.date)

/-- The maximum date of the filtered subset, `none` when it is empty. -/
def latest_date (fd : List Record) : Option Nat :=
  match fd with
  | [] => none
  | r :: rs => some (maxKeyFrom rs r.date)

/-- `latest_data_row` (app.py 210): first row of the subset whose date
equals the maximum (`iloc[0]` of the equality selection). -/
def latest_data_row (fd : List Record) : Option Record :=
  match latest_date fd with
  | none => none
  | some m => (fd.filter (fun r => r.date = m)).head?

/-- Outcome of one dashboard interaction after the filter step. -/
inductive Outcome where
  | noData (region : String)
  | render (snapshot : Record)
  | crash
deriving DecidableEq, Repr

/-- The filter-check-snapshot step (app.py 197-210): an empty subset is
reported and stops the run (`st.error` + `st.stop`); otherwise the
snapshot row is produced.  `crash` marks the unguarded `iloc[0]`, which
would raise if the equality selection were empty. -/
def dashboard (df : List Record) (region : String) (startD endD : Nat) : Outcome :=
  let fd := filtered_df df region startD endD
  if fd.isEmpty then .noData region
  else
    match latest_data_row fd with
    | some rec => .render rec
    | none => .crash

/-! ### Metric formatting (app.py 268-282)

The format specs `:,.0f` and `:.1f` round half to even, group the integer
part by thousands with commas, and keep the stated number of fractional
digits.  (`ℚ` has no signed zero, so a negative value rounding to 0 prints
`0` here where CPython prints `-0`; no claim touches that case.) -/

/-- Round half to even on the fraction `n / d` (`d > 0`), computed on the
integers: `f` is the floor and `r` the nonnegative remainder, and the
fractional part `r / d` is compared with one half. -/
def rheNum (n d : ℤ) : ℤ :=
  let f := n.fdiv d
  let r := n - f * d
  if 2 * r < d then f
  else if d < 2 * r then f + 1
  else if f % 2 = 0 then f else f + 1

/-- Round half to even, as Python string formatting does. -/
def rhe (q : ℚ) : ℤ := rheNum q.num q.den

/-- Round half to even of `10 * q`, the scaling used by the `:.1f` format. -/
def rhe10 (q : ℚ) : ℤ := rheNum (q.num * 10) q.den

/-- Decimal digits, least significant first; structural recursion on a
fuel bound (`n / 10 < n`, so `n + 1` steps always suffice). -/
def natDigitsRevFuel : Nat → Nat → List Char
  | 0, _ => []
  | fuel + 1, n =>
    if n < 10 then [Nat.digitChar n]
    else Nat.digitChar (n % 10) :: natDigitsRevFuel fuel (n / 10)

/-- Decimal digits of a natural number, least significant first. -/
def natDigitsRev (n : Nat) : List Char := natDigitsRevFuel (n + 1) n

/-- Decimal digits of a natural number, most significant first. -/
def natDigits (n : Nat) : List Char := (natDigitsRev n).reverse

/-- Insert a comma after every third digit, working least significant
first; `k` counts the digits already placed in the current group. -/
def groupRev : Nat → List Char → List Char
  | _, [] => []
  | k, c :: cs =>
    if k = 2 then (if cs = [] then [c] else c :: ',' :: groupRev 0 cs)
    else c :: groupRev (k + 1) cs

/-- `f-string` format `:,.0f`: round to an integer, thousands-grouped. -/
def fmtComma0 (v : ℚ) : String :=
  let n := rhe v
  (if n < 0 then "-" else "") ++ String.mk ((groupRev 0 (natDigitsRev n.natAbs)).reverse)

/-- `f-string` format `:.1f`: one fractional digit, rounded half-even. -/
def fmt1 (v : ℚ) : String :=
  let n := rhe10 v
  (if n < 0 then "-" else "") ++ String.mk (natDigits (n.natAbs / 10)) ++ "." ++
    String.mk [Nat.digitChar (n.natAbs % 10)]

/-- The `delta_color` argument of `st.metric`. -/
inductive DeltaColor where
  | normal
  | inverse
deriving DecidableEq, Repr

/-- One rendered `st.metric` widget: the not-available marker, a currency
value, or a percentage value with its delta string and colour setting. -/
inductive MetricDisplay where
  | na
  | currency (text : String)
  | percent (text : String) (delta : String) (color : DeltaColor)
deriving DecidableEq, Repr

/-- `safe_metric` (app.py 268-275): label and rendered widget. -/
def safe_metric (label : String) (val : Option ℚ) ( suffix : String := "")
    (is_percent : Bool := false) : String × MetricDisplay :=
  match val with
  | none => (label, .na)
  | some v =>
    if is_percent then
      (label, .percent (fmt1 v ++ "%") (fmt1 v ++ "%")
        (if v < 0 then .normal else .inverse))
    else
      (label, .currency ("£" ++ fmtComma0 v))

/-- The Key Metrics column (app.py 277-282): the four `safe_metric` calls
made on the snapshot row, in source order. -/
def metrics_panel (row : Record) : List (String × MetricDisplay) :=
  [ safe_metric "Average Price" row.averagePrice,
    safe_metric "12m Change" row.change12m "" true,
    safe_metric "FTB Price" row.ftbPrice,
    safe_metric "FTB 12m Change" row.ftb12mChange "" true ]

/-! ### Concrete sample data used by witnesses and counterexamples -/

/-- A raw row whose date text is not in day/month/year form. -/
def rawBadDate : RawRow :=
  { regionName := some "London", date := some "2020-01-01"
    averagePrice := some "1,234", change12m := some "2.5"
    semiDetachedPrice := none, terracedPrice := none, flatPrice := none
    ftbPrice := none, ftbIndex := none, ftb12mChange := none }

/-- A well-formed raw row. -/
def rawGood : RawRow :=
  { regionName := some "London", date := some "01/01/2020"
    averagePrice := some "200,000", change12m := some "2.5"
    semiDetachedPrice := none, terracedPrice := none, flatPrice := none
    ftbPrice := some "150,000", ftbIndex := some "101.5", ftb12mChange := some "-1.5" }

/-- A loaded record for the witnesses: London, 1 Jan 2020. -/
def recJan : Record :=
  { regionName := "London", date := 20200101
    averagePrice := some 200000, change12m := some (mkRat 5 2)
    semiDetachedPrice := none, terracedPrice := none, flatPrice := none
    ftbPrice := some 150000, ftbIndex := none, ftb12mChange := some (mkRat (-3) 2) }

/-- A second record for the witnesses: London, 1 Feb 2020. -/
def recFeb : Record :=
  { regionName := "London", date := 20200201
    averagePrice := some 205000, change12m := some 3
    semiDetachedPrice := none, terracedPrice := none, flatPrice := none
    ftbPrice := none, ftbIndex := none, ftb12mChange := none }

/-- A record sharing the maximum date with `recFeb`. -/
def recFebDup : Record :=
  { recFeb with averagePrice := some 210000 }

/-- A snapshot row whose first-time-buyer index is present and every
other metric field missing. -/
def rowWithIndex : Record :=
  { regionName := "London", date := 20200101
    averagePrice := none, change12m := none
    semiDetachedPrice := none, terracedPrice := none, flatPrice := none
    ftbPrice := none, ftbIndex := some 100, ftb12mChange := none }

/-- The same snapshot row with the first-time-buyer index missing. -/
def rowWithoutIndex : Record := { rowWithIndex with ftbIndex := none }

/-- A small static region mapping used by the witnesses. -/
def sampleMapping : String → List String :=
  fun p => if p = "South East" then ["Kent", "Surrey"] else []

end HPI

namespace HPI

/-! ### Helper lemmas -/

theorem fst_safe_metric (label : String) (val : Option ℚ) (suf : String) (ip : Bool) :
    (safe_metric label val suf ip).1 = label := by
  cases val with
  | none => rfl
  | some v => simp only [safe_metric]; split <;> rfl

theorem stripCommas_idem (s : String) : stripCommas (stripCommas s) = stripCommas s := by
  simp [stripCommas, List.filter_filter]

/-- The model's stable insertion sort is one algorithm meeting the
documented `sort_values` contract. -/
theorem insertionSort_isSortValues : IsSortValues (List.insertionSort Record.dle) :=
  fun l => ⟨List.perm_insertionSort _ l, List.sorted_insertionSort _ l⟩

theorem parseRow_eq_none_iff (rr : RawRow) :
    parseRow rr = none ↔ rr.regionName = none ∨ rr.date.bind parseDMY = none := by
  cases h1 : rr.regionName <;> cases h2 : rr.date.bind parseDMY <;>
    simp [parseRow, h1, h2]

theorem head?_filter_eq_find? (p : Record → Bool) :
    ∀ l : List Record, (l.filter p).head? = l.find? p := by
  intro l
  induction l with
  | nil => rfl
  | cons a l ih =>
    by_cases h : p a
    · simp [List.filter_cons, List.find?_cons, h]
    · simp only [List.filter_cons, List.find?_cons]
      rw [if_neg (by simpa using h), ih]
      simp [h]

theorem acc_le_maxKeyFrom : ∀ (l : List Record) (acc : Nat), acc ≤ maxKeyFrom l acc := by
  intro l
  induction l with
  | nil => intro acc; exact Nat.le_refl acc
  | cons r rs ih =>
    intro acc
    exact Nat.le_trans (Nat.le_max_left acc r.date) (ih (max acc r.date))

theorem date_le_maxKeyFrom : ∀ (l : List Record) (acc : Nat) (r : Record),
    r ∈ l → r.date ≤ maxKeyFrom l acc := by
  intro l
  induction l with
  | nil => intro acc r h; cases h
  | cons a rs ih =>
    intro acc r h
    rcases List.mem_cons.mp h with h | h
    · subst h
      exact Nat.le_trans (Nat.le_max_right acc r.date) (acc_le_maxKeyFrom rs _)
    · exact ih _ r h

theorem maxKeyFrom_attained : ∀ (l : List Record) (acc : Nat),
    maxKeyFrom l acc = acc ∨ ∃ r ∈ l, maxKeyFrom l acc = r.date := by
  intro l
  induction l with
  | nil => intro acc; exact Or.inl rfl
  | cons a rs ih =>
    intro acc
    rcases ih (max acc a.date) with h | ⟨r, hr, hd⟩
    · rcases Nat.le_total acc a.date with hle | hle
      · right
        exact ⟨a, List.mem_cons_self a rs, by simpa [maxKeyFrom, Nat.max_eq_right hle] using h⟩
      · left
        simpa [maxKeyFrom, Nat.max_eq_left hle] using h
    · right
      exact ⟨r, List.mem_cons_of_mem a hr, by simpa [maxKeyFrom] using hd⟩

/-- On a nonempty list, the snapshot exists, belongs to the list, and
carries the maximum date. -/
theorem latest_data_row_spec (fd : List Record) (h : fd ≠ []) :
    ∃ rec, latest_data_row fd = some rec ∧ rec ∈ fd ∧
      (∀ x ∈ fd, x.date ≤ rec.date) := by
  match fd, h with
  | r :: rs, _ =>
    have hmax : ∀ x ∈ r :: rs, x.date ≤ maxKeyFrom rs r.date := by
      intro x hx
      rcases List.mem_cons.mp hx with hx | hx
      · subst hx; exact acc_le_maxKeyFrom rs x.date
      · exact date_le_maxKeyFrom rs r.date x hx
    have hatt : ∃ x ∈ r :: rs, x.date = maxKeyFrom rs r.date := by
      rcases maxKeyFrom_attained rs r.date with h | ⟨x, hx, hd⟩
      · exact ⟨r, List.mem_cons_self r rs, h.symm⟩
      · exact ⟨x, List.mem_cons_of_mem r hx, hd.symm⟩
    rcases hatt with ⟨x, hx, hd⟩
    have hfil : x ∈ (r :: rs).filter (fun y => y.date = maxKeyFrom rs r.date) :=
      List.mem_filter.mpr ⟨hx, by simpa using hd⟩
    have hne : (r :: rs).filter (fun y => y.date = maxKeyFrom rs r.date) ≠ [] :=
      List.ne_nil_of_mem hfil
    rcases List.exists_mem_of_ne_nil _ hne with ⟨rec, _⟩
    have hhead : ∃ rec,
        ((r :: rs).filter (fun y => y.date = maxKeyFrom rs r.date)).head? = some rec := by
      cases hfl : (r :: rs).filter (fun y => y.date = maxKeyFrom rs r.date) with
      | nil => exact absurd hfl hne
      | cons b l => exact ⟨b, rfl⟩
    rcases hhead with ⟨rec, hrec⟩
    have hmem : rec ∈ (r :: rs).filter (fun y => y.date = maxKeyFrom rs r.date) :=
      List.mem_of_mem_head? (by simpa using hrec)
    have := List.mem_filter.mp hmem
    refine ⟨rec, ?_, this.1, ?_⟩
    · simpa [latest_data_row, latest_date] using hrec
    · intro y hy
      have hdate : rec.date = maxKeyFrom rs r.date := by simpa using this.2
      exact hdate ▸ hmax y hy

/-! ### Formatting lemmas -/

theorem natDigitsRevFuel_digitChar : ∀ (fuel n : Nat),
    ∀ c ∈ natDigitsRevFuel fuel n, ∃ d, d < 10 ∧ c = Nat.digitChar d := by
  intro fuel
  induction fuel with
  | zero =>
    intro n c hc
    cases hc
  | succ fuel ih =>
    intro n c hc
    rw [natDigitsRevFuel] at hc
    by_cases h : n < 10
    · rw [if_pos h] at hc
      exact ⟨n, h, List.mem_singleton.mp hc⟩
    · rw [if_neg h] at hc
      rcases List.mem_cons.mp hc with h1 | h1
      · exact ⟨n % 10, Nat.mod_lt _ (by omega), h1⟩
      · exact ih (n / 10) c h1

theorem natDigitsRev_digitChar (n : Nat) :
    ∀ c ∈ natDigitsRev n, ∃ d, d < 10 ∧ c = Nat.digitChar d :=
  natDigitsRevFuel_digitChar (n + 1) n

theorem digitChar_ne_special : ∀ d, d < 10 →
    Nat.digitChar d ≠ '.' ∧ Nat.digitChar d ≠ ',' ∧ Nat.digitChar d ≠ '£' := by
  decide

theorem mem_groupRev : ∀ (l : List Char) (k : Nat) (c : Char),
    c ∈ groupRev k l → c = ',' ∨ c ∈ l := by
  intro l
  induction l with
  | nil =>
    intro k c hc
    rw [groupRev] at hc
    cases hc
  | cons a cs ih =>
    intro k c hc
    rw [groupRev] at hc
    by_cases hk : k = 2
    · rw [if_pos hk] at hc
      by_cases he : cs = []
      · rw [if_pos he] at hc
        exact Or.inr (List.mem_cons.mpr (Or.inl (List.mem_singleton.mp hc)))
      · rw [if_neg he] at hc
        rcases List.mem_cons.mp hc with h1 | h1
        · exact Or.inr (List.mem_cons.mpr (Or.inl h1))
        · rcases List.mem_cons.mp h1 with h2 | h2
          · exact Or.inl h2
          · rcases ih 0 c h2 with h3 | h3
            · exact Or.inl h3
            · exact Or.inr (List.mem_cons.mpr (Or.inr h3))
    · rw [if_neg hk] at hc
      rcases List.mem_cons.mp hc with h1 | h1
      · exact Or.inr (List.mem_cons.mpr (Or.inl h1))
      · rcases ih (k + 1) c h1 with h2 | h2
        · exact Or.inl h2
        · exact Or.inr (List.mem_cons.mpr (Or.inr h2))

theorem filter_groupRev : ∀ (l : List Char) (k : Nat), (',' ∉ l) →
    (groupRev k l).filter (fun c => c ≠ ',') = l := by
  intro l
  induction l with
  | nil =>
    intro k _
    rw [groupRev]
    rfl
  | cons a cs ih =>
    intro k hmem
    have ha : a ≠ ',' := fun hcon => hmem (hcon ▸ List.mem_cons_self a cs)
    have hcs : ',' ∉ cs := fun hcon => hmem (List.mem_cons.mpr (Or.inr hcon))
    rw [groupRev]
    by_cases hk : k = 2
    · rw [if_pos hk]
      by_cases he : cs = []
      · rw [if_pos he, he]
        simp only [List.filter_cons]
        rw [if_pos (by simpa using ha)]
        rfl
      · rw [if_neg he]
        simp only [List.filter_cons]
        rw [if_pos (by simpa using ha), if_neg (by simp), ih 0 hcs]
    · rw [if_neg hk]
      simp only [List.filter_cons]
      rw [if_pos (by simpa using ha), ih (k + 1) hcs]

theorem natDigitsRev_no_comma (n : Nat) : ',' ∉ natDigitsRev n := by
  intro hcon
  rcases natDigitsRev_digitChar n ',' hcon with ⟨d, hd, hc⟩
  exact (digitChar_ne_special d hd).2.1 hc.symm

/-- Stripping the commas of the `:,.0f` output leaves the plain decimal
digits of the rounded value, sign included; the output has no dot. -/
theorem fmtComma0_strip (v : ℚ) :
    (fmtComma0 v).data.filter (fun c => c ≠ ',') =
      (if rhe v < 0 then ['-'] else []) ++ natDigits (rhe v).natAbs ∧
    ∀ c ∈ (fmtComma0 v).data, c ≠ '.' := by
  constructor
  · show ((if rhe v < 0 then "-" else "") ++
        String.mk ((groupRev 0 (natDigitsRev (rhe v).natAbs)).reverse)).data.filter
          (fun c => c ≠ ',') = _
    rw [String.data_append, List.filter_append]
    congr 1
    · by_cases h : rhe v < 0 <;> simp [h]
    · show ((groupRev 0 (natDigitsRev (rhe v).natAbs)).reverse).filter (fun c => c ≠ ',') = _
      rw [List.filter_reverse, filter_groupRev _ 0 (natDigitsRev_no_comma _)]
      rfl
  · intro c hc
    have : c ∈ ((if rhe v < 0 then "-" else "")).data ∨
        c ∈ (groupRev 0 (natDigitsRev (rhe v).natAbs)).reverse := by
      have hd : (fmtComma0 v).data = ((if rhe v < 0 then "-" else "")).data ++
          (groupRev 0 (natDigitsRev (rhe v).natAbs)).reverse := by
        show ((if rhe v < 0 then "-" else "") ++
          String.mk ((groupRev 0 (natDigitsRev (rhe v).natAbs)).reverse)).data = _
        rw [String.data_append]
      rw [hd] at hc
      exact List.mem_append.mp hc
    rcases this with h1 | h1
    · by_cases h : rhe v < 0 <;> simp [h] at h1 <;> simp [h1]
    · rcases mem_groupRev _ 0 c (List.mem_reverse.mp h1) with h2 | h2
      · simp [h2]
      · rcases natDigitsRev_digitChar _ c h2 with ⟨d, hd, hcd⟩
        exact hcd ▸ (digitChar_ne_special d hd).1

/-- The `:.1f` output is an integer part free of dots, one dot, and a
single fractional digit. -/
theorem fmt1_shape (v : ℚ) :
    ∃ a d, d < 10 ∧
      fmt1 v = a ++ "." ++ String.mk [Nat.digitChar d] ∧
      ∀ c ∈ a.data, c ≠ '.' := by
  refine ⟨(if rhe10 v < 0 then "-" else "") ++ String.mk (natDigits ((rhe10 v).natAbs / 10)),
    (rhe10 v).natAbs % 10, Nat.mod_lt _ (by omega), rfl, ?_⟩
  intro c hc
  rw [String.data_append] at hc
  rcases List.mem_append.mp hc with h1 | h1
  · by_cases h : rhe10 v < 0 <;> simp [h] at h1 <;> simp [h1]
  · have h2 : c ∈ natDigitsRev ((rhe10 v).natAbs / 10) := by
      have : (String.mk (natDigits ((rhe10 v).natAbs / 10))).data =
          natDigits ((rhe10 v).natAbs / 10) := rfl
      rw [this] at h1
      exact List.mem_reverse.mp h1
    rcases natDigitsRev_digitChar _ c h2 with ⟨d, hd, hcd⟩
    exact hcd ▸ (digitChar_ne_special d hd).1

/-! ### Claims -/

/-- C2: a row whose region name is missing, or whose date is missing or
fails to parse in day/month/year form, never appears in the loaded table:
deleting such a row from the input leaves `load_data` unchanged, and
`parseRow` rejects exactly those rows. -/
theorem loader_drops_missing_date_or_region (pre post : List RawRow) (rr : RawRow)
    (h : rr.regionName = none ∨ rr.date.bind parseDMY = none) :
    load_data (pre ++ rr :: post) = load_data (pre ++ post) ∧
    parseRow rr = none := by
  have hnone : parseRow rr = none := (parseRow_eq_none_iff rr).mpr h
  constructor
  · simp [load_data, List.filterMap_append, List.filterMap_cons, hnone]
  · exact hnone

theorem loader_drops_missing_date_or_region_witness :
    (rawBadDate.regionName = none ∨ rawBadDate.date.bind parseDMY = none) ∧
    load_data ([rawGood] ++ rawBadDate :: []) = load_data ([rawGood] ++ []) := by
  have h : rawBadDate.regionName = none ∨ rawBadDate.date.bind parseDMY = none := by
    right; decide
  exact ⟨h, (loader_drops_missing_date_or_region [rawGood] [] rawBadDate h).1⟩

/-- C3: on every numeric cell the loader's coercion is invariant under
deleting thousands-separator commas, so a comma-grouped literal and its
comma-free form coerce to the same number; an unparseable value becomes
missing (`none`), not zero and not an error. -/
theorem numeric_coercion_commas :
    (∀ s : String, coerceNumeric s = coerceNumeric (stripCommas s)) ∧
    coerceNumeric "1,234" = some 1234 ∧
    coerceNumeric "1234" = some 1234 ∧
    coerceNumeric "abc" = none ∧
    coerceNumeric "abc" ≠ some 0 := by
  refine ⟨?_, by decide, by decide, by decide, by decide⟩
  intro s
  simp [coerceNumeric, stripCommas_idem]

theorem numeric_coercion_commas_witness :
    coerceNumeric "9,876" = coerceNumeric (stripCommas "9,876") ∧
    coerceNumeric "9,876" = some 9876 :=
  ⟨numeric_coercion_commas.1 "9,876", by decide⟩

/-- C5: the range filter returns, in chronological order, exactly the
records of the selected region dated within the inclusive range; with
`start = end` it returns exactly the records on that single date. -/
theorem filtered_df_range (df : List Record) (region : String) (s e : Nat) :
    List.Perm (filtered_df df region s e)
      (df.filter (fun r => r.regionName = region ∧ s ≤ r.date ∧ r.date ≤ e)) ∧
    List.Sorted Record.dle (filtered_df df region s e) ∧
    (∀ r : Record, r ∈ filtered_df df region s e ↔
      r ∈ df ∧ r.regionName = region ∧ s ≤ r.date ∧ r.date ≤ e) ∧
    (∀ r : Record, r ∈ filtered_df df region s s ↔
      r ∈ df ∧ r.regionName = region ∧ r.date = s) := by
  refine ⟨List.perm_insertionSort _ _, List.sorted_insertionSort _ _, ?_, ?_⟩
  · intro r
    simp [filtered_df, List.mem_filter, and_assoc]
  · intro r
    simp only [filtered_df, List.mem_insertionSort, List.mem_filter, decide_eq_true_eq]
    constructor
    · rintro ⟨hmem, hreg, h1, h2⟩
      exact ⟨hmem, hreg, Nat.le_antisymm h2 h1⟩
    · rintro ⟨hmem, hreg, hd⟩
      exact ⟨hmem, hreg, Nat.le_of_eq hd.symm, Nat.le_of_eq hd⟩

theorem filtered_df_range_witness :
    filtered_df [recFeb, recJan] "London" 20200101 20200101 = [recJan] ∧
    (recJan ∈ filtered_df [recFeb, recJan] "London" 20200101 20200101 ↔
      recJan ∈ [recFeb, recJan] ∧ recJan.regionName = "London" ∧ recJan.date = 20200101) := by
  exact ⟨by decide, (filtered_df_range [recFeb, recJan] "London" 20200101 20200101).2.2.2 recJan⟩

/-- C1: on a non-empty filtered subset the snapshot exists, lies in the
subset, its date is the maximum date of the subset, and it is the unique
record the derivation returns even when several records share that date. -/
theorem latest_snapshot_max_date (df : List Record) (region : String) (s e : Nat)
    (h : filtered_df df region s e ≠ []) :
    ∃ rec, latest_data_row (filtered_df df region s e) = some rec ∧
      rec ∈ filtered_df df region s e ∧
      (∀ x ∈ filtered_df df region s e, x.date ≤ rec.date) ∧
      (∀ rec2, latest_data_row (filtered_df df region s e) = some rec2 → rec2 = rec) := by
  rcases latest_data_row_spec _ h with ⟨rec, h1, h2, h3⟩
  refine ⟨rec, h1, h2, h3, ?_⟩
  intro rec2 h4
  rw [h1] at h4
  exact (Option.some_inj.mp h4).symm

theorem latest_snapshot_max_date_witness :
    filtered_df [recJan, recFebDup, recFeb] "London" 20200101 20200301 ≠ [] ∧
    ∃ rec, latest_data_row (filtered_df [recJan, recFebDup, recFeb] "London" 20200101 20200301)
        = some rec ∧
      rec ∈ filtered_df [recJan, recFebDup, recFeb] "London" 20200101 20200301 ∧
      (∀ x ∈ filtered_df [recJan, recFebDup, recFeb] "London" 20200101 20200301,
        x.date ≤ rec.date) ∧
      (∀ rec2, latest_data_row (filtered_df [recJan, recFebDup, recFeb] "London" 20200101 20200301)
          = some rec2 → rec2 = rec) :=
  ⟨by decide, latest_snapshot_max_date [recJan, recFebDup, recFeb] "London" 20200101 20200301
    (by decide)⟩

/-- C10: on a non-empty filtered subset the deduplication picks exactly
the positionally first record of the date-sorted subset whose date equals
the maximum (`find?` of the date-equality test), so the snapshot is the
value of a function of the filtered subset. -/
theorem latest_snapshot_first_of_ties (df : List Record) (region : String) (s e : Nat)
    (h : filtered_df df region s e ≠ []) :
    ∃ m rec, latest_date (filtered_df df region s e) = some m ∧
      latest_data_row (filtered_df df region s e) = some rec ∧
      (filtered_df df region s e).find? (fun r => r.date = m) = some rec := by
  rcases latest_data_row_spec _ h with ⟨rec, h1, _, _⟩
  cases hfd : filtered_df df region s e with
  | nil => exact absurd hfd h
  | cons r rs =>
    rw [hfd] at h1
    have hrow : latest_data_row (r :: rs) =
        ((r :: rs).filter (fun x => x.date = maxKeyFrom rs r.date)).head? := rfl
    refine ⟨maxKeyFrom rs r.date, rec, rfl, h1, ?_⟩
    rw [← head?_filter_eq_find?, ← hrow]
    exact h1

theorem latest_snapshot_first_of_ties_witness :
    filtered_df [recJan, recFebDup, recFeb] "London" 20200101 20200301 ≠ [] ∧
    ∃ m rec, latest_date (filtered_df [recJan, recFebDup, recFeb] "London" 20200101 20200301)
        = some m ∧
      latest_data_row (filtered_df [recJan, recFebDup, recFeb] "London" 20200101 20200301)
        = some rec ∧
      (filtered_df [recJan, recFebDup, recFeb] "London" 20200101 20200301).find?
        (fun r => r.date = m) = some rec :=
  ⟨by decide, latest_snapshot_first_of_ties [recJan, recFebDup, recFeb] "London"
    20200101 20200301 (by decide)⟩

/-- C6: an empty filtered subset — in particular a region absent from the
table — produces the user-facing no-data outcome and stops; the outcome is
no-data exactly when the subset is empty, and the unguarded `iloc[0]`
crash is unreachable. -/
theorem empty_selection_no_data (df : List Record) (region : String) (s e : Nat) :
    ((∀ r ∈ df, r.regionName ≠ region) → dashboard df region s e = .noData region) ∧
    (dashboard df region s e = .noData region ↔ filtered_df df region s e = []) ∧
    dashboard df region s e ≠ .crash := by
  have hiff : dashboard df region s e = .noData region ↔ filtered_df df region s e = [] := by
    constructor
    · intro hd
      by_contra hne
      rcases latest_data_row_spec _ hne with ⟨rec, h1, _, _⟩
      have : dashboard df region s e = .render rec := by
        unfold dashboard
        rw [if_neg (by simpa using hne), h1]
      rw [this] at hd
      exact Outcome.noConfusion hd
    · intro hd
      unfold dashboard
      rw [if_pos (by simpa using hd)]
  have hcrash : dashboard df region s e ≠ .crash := by
    by_cases hne : filtered_df df region s e = []
    · unfold dashboard
      rw [if_pos (by simpa using hne)]
      exact fun hcon => Outcome.noConfusion hcon
    · rcases latest_data_row_spec _ hne with ⟨rec, h1, _, _⟩
      unfold dashboard
      rw [if_neg (by simpa using hne), h1]
      exact fun hcon => Outcome.noConfusion hcon
  refine ⟨?_, hiff, hcrash⟩
  intro hreg
  apply hiff.mpr
  unfold filtered_df
  have : df.filter (fun r => r.regionName = region ∧ s ≤ r.date ∧ r.date ≤ e) = [] := by
    apply List.filter_eq_nil_iff.mpr
    intro a ha
    simp only [decide_eq_true_eq, not_and]
    intro hcon
    exact absurd hcon (hreg a ha)
  rw [this]
  rfl

theorem empty_selection_no_data_witness :
    (∀ r ∈ [recJan, recFeb], r.regionName ≠ "Narnia") ∧
    dashboard [recJan, recFeb] "Narnia" 20200101 20200301 = .noData "Narnia" :=
  ⟨by decide, (empty_selection_no_data [recJan, recFeb] "Narnia" 20200101 20200301).1
    (by decide)⟩

/-- C4: the resolved leaf-region choices: the catch-all group yields the
alphabetically sorted distinct region names of the data; any other group
yields the members of its static list that occur in the data, falling
back to the full sorted region list when that intersection is empty. -/
theorem sub_region_resolution (mapping : String → List String) (df : List Record)
    (parent : String) :
    (parent = "All Regions (A-Z)" →
      available_sub_regions mapping df parent = sortedRegions df) ∧
    (parent ≠ "All Regions (A-Z)" →
      ((mapping parent).filter (fun n => n ∈ df.map (fun r => r.regionName)) ≠ [] →
        available_sub_regions mapping df parent =
          (mapping parent).filter (fun n => n ∈ df.map (fun r => r.regionName))) ∧
      ((mapping parent).filter (fun n => n ∈ df.map (fun r => r.regionName)) = [] →
        available_sub_regions mapping df parent = sortedRegions df)) ∧
    List.Sorted (fun a b : String => a ≤ b) (sortedRegions df) ∧
    (sortedRegions df).Nodup ∧
    (∀ n, n ∈ sortedRegions df ↔ ∃ r ∈ df, r.regionName = n) ∧
    (∀ n, n ∈ (mapping parent).filter (fun n => n ∈ df.map (fun r => r.regionName)) ↔
      n ∈ mapping parent ∧ ∃ r ∈ df, r.regionName = n) := by
  refine ⟨?_, ?_, ?_, ?_, ?_, ?_⟩
  · intro hp
    simp [available_sub_regions, hp]
  · intro hp
    constructor
    · intro hne
      simp only [available_sub_regions, if_neg hp]
      rw [if_neg hne]
    · intro he
      simp only [available_sub_regions, if_neg hp]
      rw [if_pos he]
  · exact List.sorted_insertionSort _ _
  · exact ((List.perm_insertionSort _ _).symm.nodup) (List.nodup_dedup _)
  · intro n
    simp [sortedRegions, List.mem_dedup, eq_comm]
  · intro n
    simp [List.mem_filter, eq_comm]

theorem sub_region_resolution_witness :
    "South East" ≠ "All Regions (A-Z)" ∧
    (sampleMapping "South East").filter
      (fun n => n ∈ [recJan].map (fun r => r.regionName)) = [] ∧
    available_sub_regions sampleMapping [recJan] "South East" = sortedRegions [recJan] ∧
    sortedRegions [recJan] = ["London"] :=
  ⟨by decide, by decide,
    ((sub_region_resolution sampleMapping [recJan] "South East").2.1 (by decide)).2 (by decide),
    by decide⟩

/-- C7 counterexample: the dashboard does not render a first-time-buyer
index metric at all — two snapshot rows that differ only in that field
(one present, one missing) produce identical metric panels, and no panel
entry is labelled for the index.  So the claimed five-metric rendering
(including the index, with a present/missing distinction) is false. -/
theorem ftb_index_not_rendered :
    metrics_panel rowWithIndex = metrics_panel rowWithoutIndex ∧
    rowWithIndex.ftbIndex = some 100 ∧
    rowWithoutIndex.ftbIndex = none ∧
    rowWithIndex.averagePrice = rowWithoutIndex.averagePrice ∧
    rowWithIndex.change12m = rowWithoutIndex.change12m ∧
    rowWithIndex.ftbPrice = rowWithoutIndex.ftbPrice ∧
    rowWithIndex.ftb12mChange = rowWithoutIndex.ftb12mChange ∧
    (metrics_panel rowWithIndex).map Prod.fst =
      ["Average Price", "12m Change", "FTB Price", "FTB 12m Change"] := by
  refine ⟨by decide, by decide, by decide, by decide, by decide, by decide, by decide, by decide⟩

/-- C7 (amended to the four metrics the code renders): each rendered
metric shows the snapshot value — a missing value as the `N/A` marker with
no numeric formatting, and a present currency value with the pound sign,
thousands-separator commas and no fractional digits (stripping the commas
of the text leaves exactly the sign and decimal digits of the rounded
value, and the text has no dot). -/
theorem metric_rendering_rules (row : Record) :
    ((metrics_panel row).map Prod.fst =
      ["Average Price", "12m Change", "FTB Price", "FTB 12m Change"]) ∧
    (row.averagePrice = none → (metrics_panel row)[0]? = some ("Average Price", .na)) ∧
    (∀ q, row.averagePrice = some q →
      (metrics_panel row)[0]? = some ("Average Price", .currency ("£" ++ fmtComma0 q))) ∧
    (row.change12m = none → (metrics_panel row)[1]? = some ("12m Change", .na)) ∧
    (row.ftbPrice = none → (metrics_panel row)[2]? = some ("FTB Price", .na)) ∧
    (∀ q, row.ftbPrice = some q →
      (metrics_panel row)[2]? = some ("FTB Price", .currency ("£" ++ fmtComma0 q))) ∧
    (row.ftb12mChange = none → (metrics_panel row)[3]? = some ("FTB 12m Change", .na)) ∧
    (∀ q : ℚ, ("£" ++ fmtComma0 q).data.filter (fun c => c ≠ ',') =
      '£' :: ((if rhe q < 0 then ['-'] else []) ++ natDigits (rhe q).natAbs)) ∧
    (∀ q : ℚ, ∀ c ∈ ("£" ++ fmtComma0 q).data, c ≠ '.') := by
  refine ⟨?_, ?_, ?_, ?_, ?_, ?_, ?_, ?_, ?_⟩
  · simp [metrics_panel, fst_safe_metric]
  · intro h
    simp [metrics_panel, safe_metric, h]
  · intro q h
    simp [metrics_panel, safe_metric, h]
  · intro h
    simp [metrics_panel, safe_metric, h]
  · intro h
    simp [metrics_panel, safe_metric, h]
  · intro q h
    simp [metrics_panel, safe_metric, h]
  · intro h
    simp [metrics_panel, safe_metric, h]
  · intro q
    rw [String.data_append, List.filter_append]
    have h1 : ("£" : String).data.filter (fun c => c ≠ ',') = ['£'] := by decide
    rw [h1]
    rw [(fmtComma0_strip q).1]
    rfl
  · intro q c hc
    rw [String.data_append] at hc
    rcases List.mem_append.mp hc with h1 | h1
    · have : c = '£' := by simpa using h1
      simp [this]
    · exact (fmtComma0_strip q).2 c h1

theorem metric_rendering_rules_witness :
    recFeb.averagePrice = some 205000 ∧
    (metrics_panel recFeb)[0]? = some ("Average Price", .currency "£205,000") ∧
    recFeb.ftbPrice = none ∧
    (metrics_panel recFeb)[2]? = some ("FTB Price", .na) := by
  have h1 := (metric_rendering_rules recFeb).2.2.1 205000 (by decide)
  have h2 := (metric_rendering_rules recFeb).2.2.2.2.1 (by decide)
  have hfmt : ("£" ++ fmtComma0 (205000 : ℚ)) = "£205,000" := by decide
  rw [hfmt] at h1
  exact ⟨by decide, h1, by decide, h2⟩

/-- C8: a present percentage value is rendered as its value formatted to
one decimal digit followed by the percent sign (the text splits as a
dot-free part, one dot, one digit, then the sign); a negative change is
passed the `normal` delta-colour and a non-negative change the distinct
`inverse` delta-colour, i.e. the rising direction gets the inverted
good/bad colour mapping of the widget. -/
theorem percent_rendering (label : String) (v : ℚ) :
    safe_metric label (some v) "" true =
      (label, .percent (fmt1 v ++ "%") (fmt1 v ++ "%")
        (if v < 0 then .normal else .inverse)) ∧
    (∃ a d, d < 10 ∧
      fmt1 v ++ "%" = a ++ "." ++ String.mk [Nat.digitChar d] ++ "%" ∧
      ∀ c ∈ a.data, c ≠ '.') ∧
    (v < 0 → safe_metric label (some v) "" true =
      (label, .percent (fmt1 v ++ "%") (fmt1 v ++ "%") .normal)) ∧
    (0 ≤ v → safe_metric label (some v) "" true =
      (label, .percent (fmt1 v ++ "%") (fmt1 v ++ "%") .inverse)) ∧
    DeltaColor.normal ≠ DeltaColor.inverse := by
  refine ⟨rfl, ?_, ?_, ?_, by decide⟩
  · rcases fmt1_shape v with ⟨a, d, hd, heq, hdot⟩
    exact ⟨a, d, hd, by rw [heq], hdot⟩
  · intro h
    simp [safe_metric, h]
  · intro h
    have hnot : ¬v < 0 := not_lt.mpr h
    simp [safe_metric, hnot]

theorem percent_rendering_witness :
    (0 : ℚ) ≤ 3 ∧ (-2 : ℚ) < 0 ∧
    safe_metric "12m Change" (some 3) "" true =
      ("12m Change", .percent "3.0%" "3.0%" .inverse) ∧
    safe_metric "FTB 12m Change" (some (-2)) "" true =
      ("FTB 12m Change", .percent "-2.0%" "-2.0%" .normal) := by
  have h1 := (percent_rendering "12m Change" 3).2.2.2.1 (by decide)
  have h2 := (percent_rendering "FTB 12m Change" (-2)).2.2.1 (by decide)
  have hf1 : fmt1 (3 : ℚ) ++ "%" = "3.0%" := by decide
  have hf2 : fmt1 (-2 : ℚ) ++ "%" = "-2.0%" := by decide
  rw [hf1] at h1
  rw [hf2] at h2
  exact ⟨by decide, by decide, h1, h2⟩

/-- C9: filtering is idempotent at the level the program's sort
guarantees.  For any sorting algorithms meeting the documented
`sort_values` contract (a permutation of the rows, ordered by date;
stability is not promised by the default quicksort), re-filtering the
already filtered and sorted subset with the same region and range yields
the identical subset of records: the same records with the same
multiplicities (a permutation, with equal counts), again chronologically
sorted, with the identical sequence of dates.  Only the order among
records sharing a date is not pinned down.  `filtered_df` is the instance
of `filtered_df_with` at the model's sort. -/
theorem filtered_df_idempotent_any_sort (sortF sortG : List Record → List Record)
    (hF : IsSortValues sortF) (hG : IsSortValues sortG)
    (df : List Record) (region : String) (s e : Nat) :
    List.Perm (filtered_df_with sortG (filtered_df_with sortF df region s e) region s e)
      (filtered_df_with sortF df region s e) ∧
    List.Sorted Record.dle
      (filtered_df_with sortG (filtered_df_with sortF df region s e) region s e) ∧
    ((filtered_df_with sortG (filtered_df_with sortF df region s e) region s e).map
        (fun r => r.date) =
      (filtered_df_with sortF df region s e).map (fun r => r.date)) ∧
    (∀ rec : Record,
      (filtered_df_with sortG (filtered_df_with sortF df region s e) region s e).count rec =
        (filtered_df_with sortF df region s e).count rec) ∧
    filtered_df df region s e =
      filtered_df_with (List.insertionSort Record.dle) df region s e := by
  have hfd : (filtered_df_with sortF df region s e).filter
      (fun r => r.regionName = region ∧ s ≤ r.date ∧ r.date ≤ e) =
      filtered_df_with sortF df region s e := by
    apply List.filter_eq_self.mpr
    intro a ha
    have hmem : a ∈ df.filter
        (fun r => r.regionName = region ∧ s ≤ r.date ∧ r.date ≤ e) :=
      ((hF _).1.mem_iff).mp ha
    exact (List.mem_filter.mp hmem).2
  have hre : filtered_df_with sortG (filtered_df_with sortF df region s e) region s e =
      sortG (filtered_df_with sortF df region s e) :=
    congrArg sortG hfd
  have hperm : List.Perm
      (filtered_df_with sortG (filtered_df_with sortF df region s e) region s e)
      (filtered_df_with sortF df region s e) := by
    rw [hre]
    exact (hG _).1
  have hsorted : List.Sorted Record.dle
      (filtered_df_with sortG (filtered_df_with sortF df region s e) region s e) := by
    rw [hre]
    exact (hG _).2
  refine ⟨hperm, hsorted, ?_, fun rec => hperm.count_eq rec, rfl⟩
  have hs1 : List.Sorted (fun a b : Nat => a ≤ b)
      ((filtered_df_with sortG (filtered_df_with sortF df region s e) region s e).map
        (fun r => r.date)) :=
    (List.pairwise_map).mpr hsorted
  have hs2 : List.Sorted (fun a b : Nat => a ≤ b)
      ((filtered_df_with sortF df region s e).map (fun r => r.date)) :=
    (List.pairwise_map).mpr (hF _).2
  exact List.eq_of_perm_of_sorted (hperm.map (fun r => r.date)) hs1 hs2

theorem filtered_df_idempotent_any_sort_witness :
    List.Perm
      (filtered_df_with (List.insertionSort Record.dle)
        (filtered_df_with (List.insertionSort Record.dle) [recJan, recFeb]
          "London" 20200101 20200301) "London" 20200101 20200301)
      (filtered_df_with (List.insertionSort Record.dle) [recJan, recFeb]
        "London" 20200101 20200301) ∧
    List.Sorted Record.dle
      (filtered_df_with (List.insertionSort Record.dle)
        (filtered_df_with (List.insertionSort Record.dle) [recJan, recFeb]
          "London" 20200101 20200301) "London" 20200101 20200301) ∧
    ((filtered_df_with (List.insertionSort Record.dle)
        (filtered_df_with (List.insertionSort Record.dle) [recJan, recFeb]
          "London" 20200101 20200301) "London" 20200101 20200301).map
        (fun r => r.date) =
      (filtered_df_with (List.insertionSort Record.dle) [recJan, recFeb]
        "London" 20200101 20200301).map (fun r => r.date)) ∧
    (∀ rec : Record,
      (filtered_df_with (List.insertionSort Record.dle)
        (filtered_df_with (List.insertionSort Record.dle) [recJan, recFeb]
          "London" 20200101 20200301) "London" 20200101 20200301).count rec =
        (filtered_df_with (List.insertionSort Record.dle) [recJan, recFeb]
          "London" 20200101 20200301).count rec) ∧
    filtered_df [recJan, recFeb] "London" 20200101 20200301 =
      filtered_df_with (List.insertionSort Record.dle) [recJan, recFeb]
        "London" 20200101 20200301 :=
  filtered_df_idempotent_any_sort (List.insertionSort Record.dle)
    (List.insertionSort Record.dle) insertionSort_isSortValues insertionSort_isSortValues
    [recJan, recFeb] "London" 20200101 20200301

end HPI
